import Mathlib

/-!
Verification of the conversation/tool-execution core of the `anon-kode`
terminal assistant, as a shallow embedding in Lean 4.

The embedding follows the TypeScript source:
* `src/query.ts` — the recursive query loop, tool scheduling, result ordering;
* `src/permissions.ts` — the shell-tool permission engine;
* `src/utils/messages.tsx` (in `src/tools.ts`) — message normalization;
* `src/hooks/useApiKeyVerification.ts` — the model-call wrapper
  (`shouldRetry`, `withRetry`, `queryOpenAI`, `getAssistantMessageFromError`).

Numbers that the source stores as JS floats (`costUSD`) are modelled as
rationals.  Random UUIDs, wall-clock durations and abort signals are not
modelled: no claim under scrutiny depends on them.
-/

namespace AnonKode

/-! ## Message model (src/query.ts, src/utils/messages.tsx)

`ToolUseBlock` is the tool-use request block of the model API: it carries an
`id` and a tool `name`.  A `tool_result` block carries `tool_use_id` (and NO
`id` property) — reading `.id` on it yields `undefined` in JS, which
`ContentBlock.idField` models as `none`. -/

structure ToolUseBlock where
  id : String
  name : String
  deriving DecidableEq, Repr

inductive ContentBlock where
  | text (text : String)
  | toolUse (id : String) (name : String)
  | toolResult (toolUseId : String) (content : String) (isError : Bool)
  deriving DecidableEq, Repr

/-- The JS expression `block.id`: a `tool_use` block has an `id` property; a
`text` or `tool_result` block does not (a result block has `tool_use_id`
instead), so `.id` evaluates to `undefined` there. -/
def ContentBlock.idField : ContentBlock → Option String
  | .toolUse id _ => some id
  | _ => none

/-- A user message's `message.content` is either a plain string or an ordered
list of content blocks. -/
inductive UserContent where
  | str (s : String)
  | blocks (bs : List ContentBlock)
  deriving DecidableEq, Repr

/-- The three message variants of the conversation transcript.  An assistant
message carries its accumulated cost in USD (a JS float, modelled as a
rational), a duration in milliseconds, and the API-error flag. -/
inductive Message where
  | user (content : UserContent)
  | assistant (content : List ContentBlock) (costUSD : ℚ) (durationMs : ℕ)
      (isApiErrorMessage : Bool)
  | progress (toolUseID : String)
  deriving DecidableEq, Repr

def Message.isProgress : Message → Bool
  | .progress _ => true
  | _ => false

def Message.costUSD : Message → ℚ
  | .assistant _ c _ _ => c
  | _ => 0

/-- JS `Array.isArray(content) && content[0]?.type === 'tool_result'`. -/
def UserContent.isToolResultFirst : UserContent → Bool
  | .blocks (.toolResult _ _ _ :: _) => true
  | _ => false

/-- A user message whose first content block is a `tool_result`. -/
def Message.isToolResultUser : Message → Bool
  | .user c => c.isToolResultFirst
  | _ => false

/-! ## Permission engine (src/permissions.ts)

`src/utils/commands.ts` (holding `splitCommand` and
`getCommandSubcommandPrefix`) and `src/tools/BashTool/BashTool.ts` are not in
the source tree; `bashToolHasPermission` receives the classifier as a
parameter in the source already, and the embedding likewise abstracts both
the classifier and the sub-command splitter as function parameters. -/

/-- Commands that are known to be safe for execution (read-only). -/
def SAFE_COMMANDS : List String :=
  ["git status", "git diff", "git log", "git branch", "pwd", "tree", "date",
   "which"]

/-- Modelled from the spec: `src/constants/product.ts` is not in the source
tree; the product name only appears inside the human-readable
permission-request message and no claim depends on its exact value. -/
def PRODUCT_NAME : String := "anon-kode"

/-- The fixed "requested permissions but not granted" message of
`src/permissions.ts`. -/
def permissionRequestMessage (toolName : String) : String :=
  PRODUCT_NAME ++ " requested permissions to use " ++ toolName ++
    ", but you haven't granted it yet."

/-- Modelled from the spec: `BashTool.renderToolUseMessage` (in the absent
`src/tools/BashTool/BashTool.ts`) renders the input `\x7b command \x7d` as the
full command string; the spec (§6) records the persisted key form
`ToolName(fullCommand)`. -/
def bashRenderToolUseMessage (command : String) : String := command

/-- `getPermissionKey` of src/permissions.ts, for the Bash tool: a truthy
prefix yields the key `Name(prefix:*)`; a null (or empty, hence JS-falsy)
prefix yields the full-command key `Name(command)`. -/
def getPermissionKey (toolName command : String) : Option String → String
  | some p =>
    if p = "" then toolName ++ "(" ++ bashRenderToolUseMessage command ++ ")"
    else toolName ++ "(" ++ p ++ ":*)"
  | none => toolName ++ "(" ++ bashRenderToolUseMessage command ++ ")"

/-- `bashToolCommandHasExactMatchPermission`: the safe list, the
exactly-approved full-command key, or a prefix key equal to the whole
command. -/
def bashToolCommandHasExactMatchPermission (toolName command : String)
    (allowedTools : List String) : Bool :=
  SAFE_COMMANDS.contains command
    || allowedTools.contains (getPermissionKey toolName command none)
    || allowedTools.contains (getPermissionKey toolName command (some command))

/-- `bashToolCommandHasPermission`: exact match first, then the key built
from the classifier-derived prefix. -/
def bashToolCommandHasPermission (toolName command : String)
    (pfx : Option String) (allowedTools : List String) : Bool :=
  bashToolCommandHasExactMatchPermission toolName command allowedTools
    || allowedTools.contains (getPermissionKey toolName command pfx)

/-- Per-sub-command entry of the classifier response
(`subcommandPrefixes.get(subCommand)`). -/
structure SubPrefixResult where
  commandPfx : Option String
  commandInjectionDetected : Bool
  deriving DecidableEq, Repr

/-- The classifier response of `getCommandSubcommandPrefix`: a top-level
prefix candidate, the injection flag, and the per-sub-command map (a JS
`Map`, modelled as an association list with unique keys). -/
structure SubcommandPrefixes where
  commandPfx : Option String
  commandInjectionDetected : Bool
  subcommandPfxs : List (String × SubPrefixResult)
  deriving DecidableEq, Repr

/-- `PermissionResult` of src/permissions.ts:
`\x7b result: true \x7d | \x7b result: false; message: string \x7d`. -/
inductive PermissionResult where
  | allow
  | deny (message : String)
  deriving DecidableEq, Repr

/-- `bashToolHasPermission`, instrumented: the second component records the
classifier interaction of the run — `none` when the classifier was never
invoked (the exact-match shortcut fired), `some r` when it was invoked and
resolved to `r` (`some none` is the null network-error sentinel).
The abort-signal path (which throws rather than returning a result) is not
modelled; the run is assumed uncancelled. -/
def bashToolHasPermissionTraced (toolName command : String)
    (allowedTools : List String)
    (classify : String → Option SubcommandPrefixes)
    (splitCommandFn : String → List String) (cwd : String) :
    PermissionResult × Option (Option SubcommandPrefixes) :=
  if bashToolCommandHasExactMatchPermission toolName command allowedTools then
    -- exact match: the prefix check (and hence the classifier) is skipped
    (.allow, none)
  else
    -- strip the redundant `cd <cwd>` sub-command
    let subCommands :=
      (splitCommandFn command).filter (fun s => s ≠ "cd " ++ cwd)
    match classify command with
    | none =>
      -- fail closed: the prefix query failed (e.g. network error)
      (.deny (permissionRequestMessage toolName), some none)
    | some csp =>
      if csp.commandInjectionDetected then
        -- only allow exact matches for potential command injections
        if bashToolCommandHasExactMatchPermission toolName command
            allowedTools then
          (.allow, some (some csp))
        else
          (.deny (permissionRequestMessage toolName), some (some csp))
      else if subCommands.length < 2 then
        if bashToolCommandHasPermission toolName command csp.commandPfx
            allowedTools then
          (.allow, some (some csp))
        else
          (.deny (permissionRequestMessage toolName), some (some csp))
      else if subCommands.all (fun subCommand =>
          match csp.subcommandPfxs.lookup subCommand with
          | none => false
          | some pr =>
            if pr.commandInjectionDetected then false
            else bashToolCommandHasPermission toolName subCommand
              pr.commandPfx allowedTools) then
        (.allow, some (some csp))
      else
        (.deny (permissionRequestMessage toolName), some (some csp))

/-- The permission decision itself (first component of the traced run). -/
def bashToolHasPermission (toolName command : String)
    (allowedTools : List String)
    (classify : String → Option SubcommandPrefixes)
    (splitCommandFn : String → List String) (cwd : String) :
    PermissionResult :=
  (bashToolHasPermissionTraced toolName command allowedTools classify
    splitCommandFn cwd).1

/-! ## Query loop scheduling and tool-result ordering (src/query.ts)

A tool is a collaborator with a `name` and an `isReadOnly()` classification
(only those parts matter to the scheduler). -/

structure ToolM where
  name : String
  isReadOnly : Bool
  deriving DecidableEq, Repr

/-- JS `toolUseContext.options.tools.find(t => t.name === msg.name)?.isReadOnly()`:
a missing tool gives `undefined`, which is falsy. -/
def toolIsReadOnlyForName (tools : List ToolM) (name : String) : Bool :=
  match tools.find? (fun t => t.name == name) with
  | some t => t.isReadOnly
  | none => false

def MAX_TOOL_USE_CONCURRENCY : ℕ := 10

inductive ExecutionStrategy where
  | concurrent (maxConcurrency : ℕ)
  | serial
  deriving DecidableEq, Repr

/-- The scheduling decision of `query` (src/query.ts lines 262-296): if every
requested tool is read-only, run concurrently with the fixed ceiling,
otherwise run serially. -/
def chooseExecutionStrategy (tools : List ToolM)
    (toolUseMessages : List ToolUseBlock) : ExecutionStrategy :=
  if toolUseMessages.all (fun msg => toolIsReadOnlyForName tools msg.name) then
    .concurrent MAX_TOOL_USE_CONCURRENCY
  else
    .serial

/-- `runToolsSerially`: a plain `for` loop that yields each tool-use's
messages before starting the next one. `runOne` abstracts `runToolUse`'s
emitted message sequence for a single tool-use block. -/
def runToolsSerially (runOne : ToolUseBlock → List Message) :
    List ToolUseBlock → List Message
  | [] => []
  | toolUse :: rest => runOne toolUse ++ runToolsSerially runOne rest

/-- JS `Array.prototype.findIndex`: the index of the first match, `-1` when
there is none. -/
def jsFindIndex (p : α → Bool) (l : List α) : ℤ :=
  match l.findIdx? p with
  | some i => (i : ℤ)
  | none => -1

/-- The sort key that the comparator of src/query.ts lines 304-312 computes
for a collected tool-result message `a`:
`toolUseMessages.findIndex(tu => tu.id === (a.message.content[0] as ToolUseBlock).id)`.
`firstContentIdField` is the `.id` read on the first content block. -/
def Message.firstContentIdField : Message → Option String
  | .user (.blocks (b :: _)) => b.idField
  | .assistant (b :: _) _ _ _ => b.idField
  | _ => none

/-- `tu.id === (content[0]).id` — a strict JS comparison of a string with a
possibly-`undefined` value: false whenever the right side is `undefined`. -/
def resultSortIndex (toolUseMessages : List ToolUseBlock) (a : Message) : ℤ :=
  jsFindIndex (fun tu =>
    match a.firstContentIdField with
    | some s => tu.id == s
    | none => false) toolUseMessages

/-- A stable comparator-based sort (JS `Array.prototype.sort` is stable since
ES2019): insert each index-tagged element in strictly increasing
(key, original-index) lexicographic order. -/
def insertTagged (key : α → ℤ) (x : ℕ × α) :
    List (ℕ × α) → List (ℕ × α)
  | [] => [x]
  | y :: ys =>
    if key x.2 < key y.2 ∨ (key x.2 = key y.2 ∧ x.1 < y.1) then
      x :: y :: ys
    else
      y :: insertTagged key x ys

/-- JS `array.sort((a, b) => key a - key b)`: the unique stable order sorted
by `key`. -/
def jsStableSortBy (key : α → ℤ) (l : List α) : List α :=
  (l.enum.foldr (insertTagged key) []).map (·.2)

/-- `const orderedToolResults = toolResults.sort((a, b) => aIndex - bIndex)`
of src/query.ts lines 303-312. -/
def orderedToolResults (toolUseMessages : List ToolUseBlock)
    (toolResults : List Message) : List Message :=
  jsStableSortBy (resultSortIndex toolUseMessages) toolResults

/-! ## Message normalization (src/utils/messages.tsx)

Two passes: `normalizeMessages` (display: one message per content block,
assistant cost divided across the blocks) and `normalizeMessagesForAPI`
(wire: progress stripped, consecutive tool-result user messages merged). -/

/-- Display normalization. Progress messages and string-content messages pass
through whole; an assistant message with `n` blocks becomes `n` single-block
assistant messages each carrying `costUSD / n` (the fresh random UUID drawn
per derived message in the source is not modelled); a block-content user
message is repeated once per block unchanged (the source returns the original
message object from the `map`). -/
def normalizeMessages (messages : List Message) : List Message :=
  messages.flatMap fun message =>
    match message with
    | .progress _ => [message]
    | .user (.str _) => [message]
    | .user (.blocks bs) => bs.map fun _ => message
    | .assistant content costUSD durationMs isErr =>
      content.map fun b =>
        .assistant [b] (costUSD / (content.length : ℚ)) durationMs isErr

/-- One step of the `forEach` loop of `normalizeMessagesForAPI`, acting on
the accumulated `result` list.  A tool-result user message merges into the
last accumulated message when that one is also a tool-result user message
(the source writes the merged object back at `result.indexOf(lastMessage)`;
messages are reference-distinct, so that is the last position). -/
def normalizeForAPIStep (result : List Message) (message : Message) :
    List Message :=
  match message with
  | .user content =>
    if ¬ content.isToolResultFirst then
      result ++ [message]
    else
      match result.getLast? with
      | some (.user lastContent) =>
        if lastContent.isToolResultFirst then
          match lastContent, content with
          | .blocks lastBs, .blocks bs =>
            result.dropLast ++ [.user (.blocks (lastBs ++ bs))]
          | _, _ => result ++ [message]
        else
          result ++ [message]
      | _ => result ++ [message]
  | .assistant _ _ _ _ => result ++ [message]
  | .progress _ => result

/-- Wire normalization: filter out progress messages, then fold the merge
step over the remainder. -/
def normalizeMessagesForAPI (messages : List Message) : List Message :=
  (messages.filter (fun m => !m.isProgress)).foldl normalizeForAPIStep []

/-- The content blocks of a block-content user message (empty otherwise);
used to state what merging concatenates. -/
def Message.userBlocks : Message → List ContentBlock
  | .user (.blocks bs) => bs
  | _ => []

theorem dropWhile_length_le (p : α → Bool) :
    ∀ l : List α, (l.dropWhile p).length ≤ l.length
  | [] => le_refl _
  | a :: l => by
    rw [List.dropWhile_cons]
    split
    · exact le_trans (dropWhile_length_le p l) (Nat.le_succ _)
    · exact le_refl _

/-- The concatenated content blocks of the leading run of tool-result user
messages. -/
def runJoin (l : List Message) : List ContentBlock :=
  ((l.takeWhile Message.isToolResultUser).map Message.userBlocks).flatten

/-- Specification phrasing of the wire-normalization guarantee: every maximal
run of consecutive tool-result user messages collapses to a single user
message whose content is the concatenation of the run's content blocks in
order.  This definition follows the spec's words; `normalizeMessagesForAPI`
above follows the source, and the two are proved equal. -/
def mergeToolResultRunsSpec : List Message → List Message
  | [] => []
  | m :: rest =>
    if m.isToolResultUser then
      .user (.blocks (m.userBlocks ++ runJoin rest)) ::
        mergeToolResultRunsSpec (rest.dropWhile Message.isToolResultUser)
    else
      m :: mergeToolResultRunsSpec rest
  termination_by l => l.length
  decreasing_by
    · exact Nat.lt_succ_of_le (dropWhile_length_le _ _)
    · exact Nat.lt_succ_self _

/-! ## Model-call wrapper (src/hooks/useApiKeyVerification.ts) -/

/-- JS `String.prototype.includes`. -/
def jsIncludes (s pat : String) : Bool := decide (pat.toList <:+: s.toList)

/-- An `APIError` as far as the retry classifier reads it: the message, the
HTTP status (absent or `0` is falsy), the response headers, and whether the
error is an `APIConnectionError`. -/
structure APIErrorM where
  message : String
  status : Option ℕ
  headers : List (String × String)
  isConnectionError : Bool
  deriving DecidableEq, Repr

/-- JS truthiness of `error.status` (`undefined` and `0` are falsy). -/
def APIErrorM.statusTruthy (e : APIErrorM) : Bool :=
  match e.status with
  | none => false
  | some s => s != 0

/-- `shouldRetry` of src/hooks/useApiKeyVerification.ts lines 226-258:
overloaded errors are retried only for the SWE_BENCH user type; an explicit
`x-should-retry` header is obeyed; connection failures, 408, 409, 429 and
5xx are retryable; everything else is terminal. -/
def shouldRetry (isSweBench : Bool) (error : APIErrorM) : Bool :=
  if jsIncludes error.message "\"type\":\"overloaded_error\"" then
    isSweBench
  else
    let shouldRetryHeader := error.headers.lookup "x-should-retry"
    if shouldRetryHeader = some "true" then true
    else if shouldRetryHeader = some "false" then false
    else if error.isConnectionError then true
    else if ¬ error.statusTruthy then false
    else if error.status = some 408 then true
    else if error.status = some 409 then true
    else if error.status = some 429 then true
    else if error.statusTruthy ∧ (error.status.getD 0) ≥ 500 then true
    else false

/-- A value thrown by an attempt of the model call: an `APIError`, some other
`Error`, or a non-`Error` JS value. -/
inductive Thrown where
  | apiError (e : APIErrorM)
  | plainError (message : String)
  | nonError
  deriving DecidableEq, Repr

/-- `error instanceof Error && error.message` for the three thrown shapes:
the message when the value is an `Error`, `none` otherwise. -/
def Thrown.errorMessage : Thrown → Option String
  | .apiError e => some e.message
  | .plainError m => some m
  | .nonError => none

/-- Whether `error instanceof APIError` and `shouldRetry(error)` both hold. -/
def Thrown.isRetryableAPIError (isSweBench : Bool) : Thrown → Bool
  | .apiError e => shouldRetry isSweBench e
  | _ => false

/-- The loop of `withRetry` (lines 272-313): attempts run from `1` to
`maxRetries + 1`; a failure is rethrown when the attempt budget is exhausted,
the error is not an `APIError`, or `shouldRetry` declines; `remaining` counts
the loop iterations still allowed (backoff delays are timing-only and not
modelled). `op` gives each attempt's outcome. -/
def withRetryAux (isSweBench : Bool) (maxRetries : ℕ)
    (op : ℕ → Except Thrown α) :
    (attempt : ℕ) → (remaining : ℕ) → (lastError : Thrown) → Except Thrown α
  | _, 0, lastError => .error lastError
  | attempt, remaining + 1, _ =>
    match op attempt with
    | .ok v => .ok v
    | .error err =>
      if maxRetries < attempt ∨ ¬ err.isRetryableAPIError isSweBench then
        .error err
      else
        withRetryAux isSweBench maxRetries op (attempt + 1) remaining err

/-- `withRetry`. -/
def withRetry (isSweBench : Bool) (maxRetries : ℕ)
    (op : ℕ → Except Thrown α) : Except Thrown α :=
  withRetryAux isSweBench maxRetries op 1 (maxRetries + 1) .nonError

/-- Error-message constants of src/hooks/useApiKeyVerification.ts. -/
def API_ERROR_MESSAGE_PREFIX : String := "API Error"

def PROMPT_TOO_LONG_ERROR_MESSAGE : String := "Prompt is too long"

def CREDIT_BALANCE_TOO_LOW_ERROR_MESSAGE : String :=
  "Credit balance is too low"

def INVALID_API_KEY_ERROR_MESSAGE : String :=
  "Invalid API key · Please run /login"

def NO_CONTENT_MESSAGE : String := "(no content)"

/-- `createAssistantAPIErrorMessage` of src/utils/messages.tsx: a synthetic
single-text-block assistant message with zero cost and the API-error flag
set. -/
def createAssistantAPIErrorMessage (content : String) : Message :=
  .assistant [.text (if content = "" then NO_CONTENT_MESSAGE else content)]
    0 0 true

/-- `getAssistantMessageFromError` (lines 980-1005): category-specific texts
for prompt-too-long, credit-balance and credential errors, a generic
"API Error: message" for other `Error`s, and the bare prefix for non-`Error`
values. -/
def getAssistantMessageFromError (error : Thrown) : Message :=
  match error.errorMessage with
  | some msg =>
    if jsIncludes msg "prompt is too long" then
      createAssistantAPIErrorMessage PROMPT_TOO_LONG_ERROR_MESSAGE
    else if jsIncludes msg "Your credit balance is too low" then
      createAssistantAPIErrorMessage CREDIT_BALANCE_TOO_LOW_ERROR_MESSAGE
    else if jsIncludes msg.toLower "x-api-key" then
      createAssistantAPIErrorMessage INVALID_API_KEY_ERROR_MESSAGE
    else
      createAssistantAPIErrorMessage (API_ERROR_MESSAGE_PREFIX ++ ": " ++ msg)
  | none => createAssistantAPIErrorMessage API_ERROR_MESSAGE_PREFIX

/-- A successful completion, already converted to the Anthropic shape
(`convertOpenAIResponseToAnthropic`): content blocks plus usage counters. -/
structure ResponseM where
  content : List ContentBlock
  promptTokens : ℕ
  completionTokens : ℕ
  cachedTokens : ℕ
  deriving DecidableEq, Repr

/-- Per-million-token rates used by `queryOpenAI` (Sonnet tier). -/
def SONNET_COST_PER_MILLION_INPUT_TOKENS : ℚ := 3
def SONNET_COST_PER_MILLION_OUTPUT_TOKENS : ℚ := 15
def SONNET_COST_PER_MILLION_PROMPT_CACHE_WRITE_TOKENS : ℚ := 15 / 4
def SONNET_COST_PER_MILLION_PROMPT_CACHE_READ_TOKENS : ℚ := 3 / 10

/-- `normalizeContentFromAPI`: drop effectively-empty text blocks; an
entirely empty result becomes the single `(no content)` text block. -/
def normalizeContentFromAPI (content : List ContentBlock) :
    List ContentBlock :=
  let filteredContent := content.filter fun b =>
    match b with
    | .text t => t.trim.length > 0
    | _ => true
  if filteredContent.length = 0 then [.text NO_CONTENT_MESSAGE]
  else filteredContent

/-- The cost computation of `queryOpenAI` (lines 1163-1175); note the source
reads `cached_tokens` for both the cache-read and cache-creation counters. -/
def queryOpenAICost (r : ResponseM) : ℚ :=
  (r.promptTokens : ℚ) / 1000000 * SONNET_COST_PER_MILLION_INPUT_TOKENS +
    (r.completionTokens : ℚ) / 1000000 *
      SONNET_COST_PER_MILLION_OUTPUT_TOKENS +
    (r.cachedTokens : ℚ) / 1000000 *
      SONNET_COST_PER_MILLION_PROMPT_CACHE_READ_TOKENS +
    (r.cachedTokens : ℚ) / 1000000 *
      SONNET_COST_PER_MILLION_PROMPT_CACHE_WRITE_TOKENS

/-- The model-call wrapper `queryOpenAI` (lines 1040-1195), reduced to its
outcome: the retried model call either succeeds — yielding a normal assistant
message with the computed cost — or fails, and the caught error is converted
into a synthetic API-error assistant message; the wrapper itself never
throws.  Wall-clock durations are not modelled (recorded as 0). -/
def queryOpenAIModel (isSweBench : Bool) (maxRetries : ℕ)
    (op : ℕ → Except Thrown ResponseM) : Message :=
  match withRetry isSweBench maxRetries op with
  | .error error => getAssistantMessageFromError error
  | .ok response =>
    .assistant (normalizeContentFromAPI response.content)
      (queryOpenAICost response) 0 false

/-! ## Theorems -/

/-- With a constant sort key, the stable sort is the identity: every
insertion happens at the end because the original indices increase. -/
theorem insertTagged_foldr_const_key (key : α → ℤ) (c : ℤ) :
    ∀ (l : List α) (i : ℕ), (∀ x ∈ l, key x = c) →
      (List.enumFrom i l).foldr (insertTagged key) [] = List.enumFrom i l := by
  intro l
  induction l with
  | nil => intro i _; rfl
  | cons a rest ih =>
    intro i h
    have ha : key a = c := h a (List.mem_cons_self _ _)
    have hrest : ∀ x ∈ rest, key x = c := fun x hx =>
      h x (List.mem_cons_of_mem _ hx)
    rw [List.enumFrom_cons, List.foldr_cons, ih (i + 1) hrest]
    cases rest with
    | nil => rfl
    | cons b rest' =>
      have hb : key b = c := hrest b (List.mem_cons_self _ _)
      rw [List.enumFrom_cons]
      show insertTagged key (i, a) ((i + 1, b) :: _) = _
      rw [insertTagged]
      simp [ha, hb]

/-- A predicate that never holds gives `findIndex` result `-1`. -/
theorem jsFindIndex_of_none (p : α → Bool) (l : List α)
    (h : ∀ x ∈ l, p x = false) : jsFindIndex p l = -1 := by
  unfold jsFindIndex
  have key : ∀ (l' : List α) (i : ℕ), (∀ x ∈ l', p x = false) →
      List.findIdx? p l' i = none := by
    intro l'
    induction l' with
    | nil => intro i _; rfl
    | cons a rest ih =>
      intro i ha
      rw [List.findIdx?]
      rw [ha a (List.mem_cons_self _ _)]
      simp only [if_neg (by simp : ¬ (false = true))]
      exact ih (i + 1) fun x hx => ha x (List.mem_cons_of_mem _ hx)
  rw [key l 0 h]

/-- Every tool-result user message has sort key `-1` (its first content block
has no `id` property), so the "ordering" sort of src/query.ts is the identity
on every batch of collected tool results. -/
theorem orderedToolResults_id (toolUseMessages : List ToolUseBlock)
    (toolResults : List Message)
    (h : ∀ r ∈ toolResults, r.firstContentIdField = none) :
    orderedToolResults toolUseMessages toolResults = toolResults := by
  unfold orderedToolResults jsStableSortBy
  have hkey : ∀ r ∈ toolResults, resultSortIndex toolUseMessages r = -1 := by
    intro r hr
    unfold resultSortIndex
    rw [h r hr]
    exact jsFindIndex_of_none _ _ fun x _ => rfl
  rw [show toolResults.enum = List.enumFrom 0 toolResults from rfl]
  rw [insertTagged_foldr_const_key _ (-1) toolResults 0 hkey]
  rw [show List.enumFrom 0 toolResults = toolResults.enum from rfl]
  exact List.enum_map_snd toolResults

/-- C1: REFUTED ON THE CODE (code bug).  The comparator of src/query.ts
lines 304-312 reads `.id` from the first content block of each collected
tool-result user message, but a `tool_result` block carries only
`tool_use_id`; both `findIndex` calls therefore return `-1`, the comparator
returns `0`, and the stable sort leaves the results in completion order.
With requests `toolu_01, toolu_02` and completion order `toolu_02, toolu_01`,
the "ordered" results stay `toolu_02, toolu_01` instead of the claimed
request order `toolu_01, toolu_02`. -/
theorem toolResults_sort_noop_at_failing_input :
    orderedToolResults
        [⟨"toolu_01", "View"⟩, ⟨"toolu_02", "View"⟩]
        [.user (.blocks [.toolResult "toolu_02" "out2" false]),
         .user (.blocks [.toolResult "toolu_01" "out1" false])]
      = [.user (.blocks [.toolResult "toolu_02" "out2" false]),
         .user (.blocks [.toolResult "toolu_01" "out1" false])]
    ∧ orderedToolResults
        [⟨"toolu_01", "View"⟩, ⟨"toolu_02", "View"⟩]
        [.user (.blocks [.toolResult "toolu_02" "out2" false]),
         .user (.blocks [.toolResult "toolu_01" "out1" false])]
      ≠ [.user (.blocks [.toolResult "toolu_01" "out1" false]),
         .user (.blocks [.toolResult "toolu_02" "out2" false])] := by
  constructor
  · rfl
  · intro h
    exact absurd h (by decide)

/-- The serial runner concatenates each tool-use's emitted messages in
request order. -/
theorem runToolsSerially_eq_flatMap (runOne : ToolUseBlock → List Message) :
    ∀ toolUseMessages : List ToolUseBlock,
      runToolsSerially runOne toolUseMessages
        = toolUseMessages.flatMap runOne := by
  intro toolUseMessages
  induction toolUseMessages with
  | nil => rfl
  | cons tu rest ih => rw [runToolsSerially, List.flatMap_cons, ih]

/-- C7: the scheduling decision of the query loop.  The concurrent path
(with the fixed ceiling of 10) is taken exactly when every requested
tool-use names a catalog tool that is declared read-only, and the serial
path otherwise; the serial runner emits each tool-use's messages in the
requested order (it is the concatenation in request order). -/
theorem scheduling_readOnly_concurrent_else_serial
    (tools : List ToolM) (toolUseMessages : List ToolUseBlock)
    (runOne : ToolUseBlock → List Message) :
    (chooseExecutionStrategy tools toolUseMessages
        = .concurrent MAX_TOOL_USE_CONCURRENCY
      ↔ ∀ msg ∈ toolUseMessages,
          ∃ t, tools.find? (fun t => t.name == msg.name) = some t
            ∧ t.isReadOnly = true)
    ∧ (chooseExecutionStrategy tools toolUseMessages = .serial
      ↔ ¬ ∀ msg ∈ toolUseMessages,
          ∃ t, tools.find? (fun t => t.name == msg.name) = some t
            ∧ t.isReadOnly = true)
    ∧ MAX_TOOL_USE_CONCURRENCY = 10
    ∧ runToolsSerially runOne toolUseMessages
        = toolUseMessages.flatMap runOne := by
  have hiff : toolUseMessages.all
        (fun msg => toolIsReadOnlyForName tools msg.name) = true
      ↔ ∀ msg ∈ toolUseMessages,
          ∃ t, tools.find? (fun t => t.name == msg.name) = some t
            ∧ t.isReadOnly = true := by
    rw [List.all_eq_true]
    constructor
    · intro h msg hmsg
      have := h msg hmsg
      unfold toolIsReadOnlyForName at this
      cases hf : tools.find? (fun t => t.name == msg.name) with
      | none => rw [hf] at this; exact absurd this (by simp)
      | some t => rw [hf] at this; exact ⟨t, rfl, this⟩
    · intro h msg hmsg
      obtain ⟨t, hf, hro⟩ := h msg hmsg
      unfold toolIsReadOnlyForName
      rw [hf]
      exact hro
  refine ⟨?_, ?_, rfl, ?_⟩
  · unfold chooseExecutionStrategy
    split
    · next hall => simp only [true_iff]; exact hiff.mp hall
    · next hall =>
      constructor
      · intro h; exact absurd h (by simp)
      · intro h; exact absurd (hiff.mpr h) hall
  · unfold chooseExecutionStrategy
    split
    · next hall =>
      constructor
      · intro h; exact absurd h (by simp)
      · intro h; exact absurd (hiff.mp hall) h
    · next hall => simp only [true_iff]; exact fun h => hall (hiff.mpr h)
  · exact runToolsSerially_eq_flatMap runOne toolUseMessages

/-- C10: a tool-use naming a tool absent from the active catalog makes the
read-only test false for that entry, so the whole batch is dispatched on the
serial path. -/
theorem unknown_tool_forces_serial
    (tools : List ToolM) (toolUseMessages : List ToolUseBlock)
    (msg : ToolUseBlock) (hmem : msg ∈ toolUseMessages)
    (hmissing : tools.find? (fun t => t.name == msg.name) = none) :
    chooseExecutionStrategy tools toolUseMessages = .serial := by
  unfold chooseExecutionStrategy
  split
  · next hall =>
    rw [List.all_eq_true] at hall
    have := hall msg hmem
    unfold toolIsReadOnlyForName at this
    rw [hmissing] at this
    exact absurd this (by simp)
  · rfl

/-- Witness for `unknown_tool_forces_serial`: a batch of a known read-only
tool and an unknown tool name is dispatched serially. -/
theorem unknown_tool_forces_serial_witness :
    (⟨"tu2", "Missing"⟩ : ToolUseBlock)
        ∈ ([⟨"tu1", "View"⟩, ⟨"tu2", "Missing"⟩] : List ToolUseBlock)
    ∧ ([⟨"View", true⟩] : List ToolM).find?
        (fun t => t.name == (⟨"tu2", "Missing"⟩ : ToolUseBlock).name) = none
    ∧ chooseExecutionStrategy [⟨"View", true⟩]
        [⟨"tu1", "View"⟩, ⟨"tu2", "Missing"⟩] = .serial :=
  ⟨by decide, by decide,
    unknown_tool_forces_serial [⟨"View", true⟩]
      [⟨"tu1", "View"⟩, ⟨"tu2", "Missing"⟩] ⟨"tu2", "Missing"⟩
      (by decide) (by decide)⟩

/-- C2: fail closed.  Whenever the run consults the command-prefix
classifier and the classifier resolves to the null network-error sentinel
(`some none` in the trace), the permission check returns denial with the
permission-request message — never approval. -/
theorem classifier_failure_fails_closed
    (toolName command : String) (allowedTools : List String)
    (classify : String → Option SubcommandPrefixes)
    (splitCommandFn : String → List String) (cwd : String)
    (hfail : (bashToolHasPermissionTraced toolName command allowedTools
        classify splitCommandFn cwd).2 = some none) :
    (bashToolHasPermissionTraced toolName command allowedTools classify
        splitCommandFn cwd).1 = .deny (permissionRequestMessage toolName) := by
  by_cases hex : bashToolCommandHasExactMatchPermission toolName command
      allowedTools = true
  · exfalso
    unfold bashToolHasPermissionTraced at hfail
    rw [if_pos hex] at hfail
    exact absurd hfail (by simp)
  · unfold bashToolHasPermissionTraced at hfail ⊢
    rw [if_neg hex] at hfail ⊢
    cases hc : classify command with
    | none => rfl
    | some csp =>
      rw [hc] at hfail
      exfalso
      dsimp only at hfail
      repeat' split at hfail
      all_goals simp at hfail

/-- Witness for `classifier_failure_fails_closed`: an unapproved command with
a failing classifier is denied. -/
theorem classifier_failure_fails_closed_witness :
    (bashToolHasPermissionTraced "Bash" "vim" [] (fun _ => none)
        (fun c => [c]) "/").2 = some none
    ∧ (bashToolHasPermissionTraced "Bash" "vim" [] (fun _ => none)
        (fun c => [c]) "/").1 = .deny (permissionRequestMessage "Bash") :=
  ⟨by decide,
    classifier_failure_fails_closed "Bash" "vim" [] (fun _ => none)
      (fun c => [c]) "/" (by decide)⟩

/-- C3: injection override.  When the classifier flags suspected command
injection, the permission check approves if and only if the full command
string has an exact match: the safe-command list, the exactly-approved
full-command key, or a prefix key equal to the whole command.  A
prefix-scoped approval matching only a leading subcommand is insufficient. -/
theorem injection_flag_requires_exact_match
    (toolName command : String) (allowedTools : List String)
    (classify : String → Option SubcommandPrefixes)
    (splitCommandFn : String → List String) (cwd : String)
    (csp : SubcommandPrefixes)
    (hc : classify command = some csp)
    (hinj : csp.commandInjectionDetected = true) :
    (bashToolHasPermissionTraced toolName command allowedTools classify
        splitCommandFn cwd).1 = .allow
      ↔ (SAFE_COMMANDS.contains command = true
          ∨ allowedTools.contains (getPermissionKey toolName command none)
              = true
          ∨ allowedTools.contains
              (getPermissionKey toolName command (some command)) = true) := by
  have hexact : bashToolCommandHasExactMatchPermission toolName command
        allowedTools = true
      ↔ (SAFE_COMMANDS.contains command = true
          ∨ allowedTools.contains (getPermissionKey toolName command none)
              = true
          ∨ allowedTools.contains
              (getPermissionKey toolName command (some command)) = true) := by
    unfold bashToolCommandHasExactMatchPermission
    simp [Bool.or_eq_true, or_assoc]
  unfold bashToolHasPermissionTraced
  by_cases hex : bashToolCommandHasExactMatchPermission toolName command
      allowedTools = true
  · rw [if_pos hex]
    simp only [true_iff]
    exact hexact.mp hex
  · rw [if_neg hex, hc]
    simp only
    rw [if_pos hinj, if_neg hex]
    constructor
    · intro h; exact absurd h (by simp)
    · intro h; exact absurd (hexact.mpr h) hex

/-- Witness for `injection_flag_requires_exact_match`: a prefix-approved
`echo` does not approve a semicolon-joined command flagged for injection. -/
theorem injection_flag_requires_exact_match_witness :
    (fun _ : String =>
        some (⟨some "echo", true, []⟩ : SubcommandPrefixes))
        "echo hello; rm -rf /"
      = some (⟨some "echo", true, []⟩ : SubcommandPrefixes)
    ∧ (⟨some "echo", true, []⟩ : SubcommandPrefixes).commandInjectionDetected
        = true
    ∧ ((bashToolHasPermissionTraced "Bash" "echo hello; rm -rf /"
          ["Bash(echo:*)"]
          (fun _ => some (⟨some "echo", true, []⟩ : SubcommandPrefixes))
          (fun _ => ["echo hello", "rm -rf /"]) "/").1 = .allow
        ↔ (SAFE_COMMANDS.contains "echo hello; rm -rf /" = true
            ∨ (["Bash(echo:*)"] : List String).contains
                (getPermissionKey "Bash" "echo hello; rm -rf /" none) = true
            ∨ (["Bash(echo:*)"] : List String).contains
                (getPermissionKey "Bash" "echo hello; rm -rf /"
                  (some "echo hello; rm -rf /")) = true)) :=
  ⟨rfl, rfl,
    injection_flag_requires_exact_match "Bash" "echo hello; rm -rf /"
      ["Bash(echo:*)"]
      (fun _ => some (⟨some "echo", true, []⟩ : SubcommandPrefixes))
      (fun _ => ["echo hello", "rm -rf /"]) "/"
      (⟨some "echo", true, []⟩ : SubcommandPrefixes) rfl rfl⟩

/-- The per-sub-command test of the compound branch, in `∃` form. -/
theorem subcommand_check_eq_true_iff (csp : SubcommandPrefixes)
    (toolName : String) (allowedTools : List String) (subCommand : String) :
    (match csp.subcommandPfxs.lookup subCommand with
      | none => false
      | some pr =>
        if pr.commandInjectionDetected then false
        else bashToolCommandHasPermission toolName subCommand
          pr.commandPfx allowedTools) = true
    ↔ ∃ pr, csp.subcommandPfxs.lookup subCommand = some pr
        ∧ pr.commandInjectionDetected = false
        ∧ bashToolCommandHasPermission toolName subCommand pr.commandPfx
            allowedTools = true := by
  cases hl : csp.subcommandPfxs.lookup subCommand with
  | none => simp
  | some pr =>
    by_cases hinj : pr.commandInjectionDetected = true
    · simp [hinj]
    · simp only [Bool.not_eq_true] at hinj
      simp [hinj]

/-- C4: compound command all-or-nothing.  For a command that splits into two
or more sub-commands (after dropping the redundant `cd <cwd>`) and is not
itself exactly approved, the permission check approves if and only if the
classifier returned a prefix map with no top-level injection flag and every
sub-command individually has a mapped, non-injection-flagged prefix result
with a prefix-or-exact approval; in particular a sub-command missing from
the map denies the whole compound command. -/
theorem compound_command_all_or_nothing
    (toolName command : String) (allowedTools : List String)
    (classify : String → Option SubcommandPrefixes)
    (splitCommandFn : String → List String) (cwd : String)
    (hlen : 2 ≤ ((splitCommandFn command).filter
        (fun s => s ≠ "cd " ++ cwd)).length)
    (hex : bashToolCommandHasExactMatchPermission toolName command
        allowedTools = false) :
    (bashToolHasPermissionTraced toolName command allowedTools classify
        splitCommandFn cwd).1 = .allow
    ↔ ∃ csp, classify command = some csp
        ∧ csp.commandInjectionDetected = false
        ∧ ∀ subCommand ∈ (splitCommandFn command).filter
            (fun s => s ≠ "cd " ++ cwd),
          ∃ pr, csp.subcommandPfxs.lookup subCommand = some pr
            ∧ pr.commandInjectionDetected = false
            ∧ bashToolCommandHasPermission toolName subCommand pr.commandPfx
                allowedTools = true := by
  unfold bashToolHasPermissionTraced
  rw [if_neg (by simp [hex])]
  cases hc : classify command with
  | none => simp
  | some csp =>
    dsimp only
    by_cases hinj : csp.commandInjectionDetected = true
    · rw [if_pos hinj, if_neg (by simp [hex])]
      constructor
      · intro h; exact absurd h (by simp)
      · rintro ⟨csp', hcsp', hflag, _⟩
        rw [show csp' = csp from (Option.some_inj.mp hcsp').symm] at hflag
        rw [hinj] at hflag
        exact absurd hflag (by simp)
    · rw [if_neg hinj]
      rw [if_neg (by omega : ¬ ((splitCommandFn command).filter
          (fun s => s ≠ "cd " ++ cwd)).length < 2)]
      constructor
      · intro h
        refine ⟨csp, rfl, by simpa using hinj, ?_⟩
        intro subCommand hsub
        split at h
        · next hall =>
          rw [List.all_eq_true] at hall
          exact (subcommand_check_eq_true_iff csp toolName allowedTools
            subCommand).mp (hall subCommand hsub)
        · exact absurd h (by simp)
      · rintro ⟨csp', hcsp', _, hall⟩
        have heq : csp' = csp := (Option.some_inj.mp hcsp').symm
        subst heq
        rw [if_pos ?_]
        rw [List.all_eq_true]
        intro subCommand hsub
        exact (subcommand_check_eq_true_iff csp' toolName allowedTools
          subCommand).mpr (hall subCommand hsub)

/-- Witness for `compound_command_all_or_nothing`: the command `a; b` with
both sub-command prefixes approved is approved as a whole. -/
theorem compound_command_all_or_nothing_witness :
    2 ≤ (((fun _ : String => ["a", "b"]) "a; b").filter
        (fun s => s ≠ "cd " ++ "/")).length
    ∧ bashToolCommandHasExactMatchPermission "Bash" "a; b"
        ["Bash(a:*)", "Bash(b:*)"] = false
    ∧ ((bashToolHasPermissionTraced "Bash" "a; b" ["Bash(a:*)", "Bash(b:*)"]
          (fun _ => some (⟨some "a", false,
            [("a", ⟨some "a", false⟩), ("b", ⟨some "b", false⟩)]⟩ :
              SubcommandPrefixes))
          (fun _ => ["a", "b"]) "/").1 = .allow
        ↔ ∃ csp, (fun _ : String => some (⟨some "a", false,
              [("a", ⟨some "a", false⟩), ("b", ⟨some "b", false⟩)]⟩ :
                SubcommandPrefixes)) "a; b" = some csp
            ∧ csp.commandInjectionDetected = false
            ∧ ∀ subCommand ∈ (((fun _ : String => ["a", "b"]) "a; b").filter
                (fun s => s ≠ "cd " ++ "/")),
              ∃ pr, csp.subcommandPfxs.lookup subCommand = some pr
                ∧ pr.commandInjectionDetected = false
                ∧ bashToolCommandHasPermission "Bash" subCommand pr.commandPfx
                    ["Bash(a:*)", "Bash(b:*)"] = true) :=
  ⟨by decide, by decide,
    compound_command_all_or_nothing "Bash" "a; b" ["Bash(a:*)", "Bash(b:*)"]
      (fun _ => some (⟨some "a", false,
        [("a", ⟨some "a", false⟩), ("b", ⟨some "b", false⟩)]⟩ :
          SubcommandPrefixes))
      (fun _ => ["a", "b"]) "/" (by decide) (by decide)⟩

/-- C6 counterexample: the retry classifier checks the overloaded-error
marker FIRST, so outside the SWE_BENCH user type an overloaded error is
terminal even though its `x-should-retry` header is the truthy `"true"` and
its status `529` is a 5xx — the claim says any such error is retryable. -/
theorem shouldRetry_overloaded_overrides_truthy_header :
    shouldRetry false
        { message := "\"type\":\"overloaded_error\""
        , status := some 529
        , headers := [("x-should-retry", "true")]
        , isConnectionError := false } = false
    ∧ ({ message := "\"type\":\"overloaded_error\""
        , status := some 529
        , headers := [("x-should-retry", "true")]
        , isConnectionError := false } : APIErrorM).headers.lookup
          "x-should-retry" = some "true"
    ∧ ({ message := "\"type\":\"overloaded_error\""
        , status := some 529
        , headers := [("x-should-retry", "true")]
        , isConnectionError := false } : APIErrorM).status = some 529 := by
  refine ⟨?_, rfl, rfl⟩
  decide

/-- C6 (amended): the full classification.  An error whose message carries
the overloaded-error marker is retried exactly in SWE_BENCH mode, taking
precedence over every other rule; for all other errors, a `"false"`
`x-should-retry` header forces terminal, and retry happens exactly for a
`"true"` header, a connection failure, or a truthy status equal to 408, 409,
429 or at least 500. -/
theorem shouldRetry_characterization (isSweBench : Bool) (e : APIErrorM) :
    shouldRetry isSweBench e = true ↔
      (jsIncludes e.message "\"type\":\"overloaded_error\"" = true
        ∧ isSweBench = true)
      ∨ (jsIncludes e.message "\"type\":\"overloaded_error\"" = false
          ∧ e.headers.lookup "x-should-retry" ≠ some "false"
          ∧ (e.headers.lookup "x-should-retry" = some "true"
              ∨ e.isConnectionError = true
              ∨ ∃ s, e.status = some s ∧ s ≠ 0
                  ∧ (s = 408 ∨ s = 409 ∨ s = 429 ∨ 500 ≤ s))) := by
  unfold shouldRetry
  by_cases hov : jsIncludes e.message "\"type\":\"overloaded_error\"" = true
  · rw [if_pos hov]
    simp [hov]
  · rw [if_neg hov]
    simp only [Bool.not_eq_true] at hov
    dsimp only
    by_cases htrue : e.headers.lookup "x-should-retry" = some "true"
    · rw [if_pos htrue]
      simp [hov, htrue]
    · rw [if_neg htrue]
      by_cases hfalse : e.headers.lookup "x-should-retry" = some "false"
      · rw [if_pos hfalse]
        simp [hov, htrue, hfalse]
      · rw [if_neg hfalse]
        by_cases hconn : e.isConnectionError = true
        · rw [if_pos hconn]
          simp [hov, htrue, hfalse, hconn]
        · rw [if_neg hconn]
          simp only [Bool.not_eq_true] at hconn
          cases hs : e.status with
          | none =>
            have : e.statusTruthy = false := by
              unfold APIErrorM.statusTruthy; rw [hs]
            simp [hov, htrue, hfalse, hconn, hs, this]
          | some s =>
            by_cases hzero : s = 0
            · subst hzero
              have : e.statusTruthy = false := by
                unfold APIErrorM.statusTruthy; rw [hs]; rfl
              simp [hov, htrue, hfalse, hconn, hs, this]
            · have htru : e.statusTruthy = true := by
                unfold APIErrorM.statusTruthy
                rw [hs]
                simpa using hzero
              rw [if_neg (by simp [htru] : ¬ (¬ e.statusTruthy = true))]
              by_cases h408 : s = 408
              · subst h408
                simp [hov, htrue, hfalse, hconn, hs]
              · by_cases h409 : s = 409
                · subst h409
                  simp [hov, htrue, hfalse, hconn, hs]
                · by_cases h429 : s = 429
                  · subst h429
                    simp [hov, htrue, hfalse, hconn, hs]
                  · by_cases h5xx : 500 ≤ s
                    · rw [if_neg (by simp; omega),
                        if_neg (by simp; omega),
                        if_neg (by simp; omega),
                        if_pos ⟨htru, by simpa using h5xx⟩]
                      simp only [true_iff]
                      exact Or.inr ⟨hov, hfalse,
                        Or.inr (Or.inr ⟨s, rfl, hzero,
                          Or.inr (Or.inr (Or.inr h5xx))⟩)⟩
                    · rw [if_neg (by simp; omega),
                        if_neg (by simp; omega),
                        if_neg (by simp; omega),
                        if_neg (by
                          rintro ⟨-, hge⟩
                          exact h5xx (by simpa using hge))]
                      constructor
                      · intro h; exact absurd h (by simp)
                      · rintro (⟨hov', -⟩ | ⟨-, -,
                            (ht | hcn | ⟨s', hs', hz', hcases⟩)⟩)
                        · rw [hov] at hov'; exact absurd hov' (by simp)
                        · exact absurd ht htrue
                        · rw [hcn] at hconn; exact absurd hconn (by simp)
                        · obtain rfl : s = s' := Option.some_inj.mp hs'
                          rcases hcases with h | h | h | h
                          · exact absurd h h408
                          · exact absurd h h409
                          · exact absurd h h429
                          · exact absurd h h5xx

theorem api_error_prefixed_text_ne_empty (m : String) :
    API_ERROR_MESSAGE_PREFIX ++ ": " ++ m ≠ "" := by
  intro h
  have hlen := congrArg String.length h
  rw [String.length_append, String.length_append] at hlen
  unfold API_ERROR_MESSAGE_PREFIX at hlen
  rw [show ("API Error" : String).length = 9 from rfl,
    show (": " : String).length = 2 from rfl,
    show ("" : String).length = 0 from rfl] at hlen
  omega

/-- C5: the model-call wrapper never throws.  Whenever the retried model
call fails (terminal error or retries exhausted), `queryOpenAI` resolves to
a well-formed single-text-block assistant message with the API-error flag
set; the text is the prompt-too-long, credit-balance or invalid-credential
message for those categories, the generic "API Error: <message>" for every
other `Error`, and the bare prefix for a thrown non-`Error` value. -/
theorem model_call_wrapper_never_throws (isSweBench : Bool) (maxRetries : ℕ)
    (op : ℕ → Except Thrown ResponseM) (e : Thrown)
    (hfail : withRetry isSweBench maxRetries op = .error e) :
    ∃ t, queryOpenAIModel isSweBench maxRetries op
        = .assistant [.text t] 0 0 true
      ∧ (∀ m, e.errorMessage = some m →
          t = if jsIncludes m "prompt is too long" then
                PROMPT_TOO_LONG_ERROR_MESSAGE
              else if jsIncludes m "Your credit balance is too low" then
                CREDIT_BALANCE_TOO_LOW_ERROR_MESSAGE
              else if jsIncludes m.toLower "x-api-key" then
                INVALID_API_KEY_ERROR_MESSAGE
              else API_ERROR_MESSAGE_PREFIX ++ ": " ++ m)
      ∧ (e.errorMessage = none → t = API_ERROR_MESSAGE_PREFIX) := by
  have hq : queryOpenAIModel isSweBench maxRetries op
      = getAssistantMessageFromError e := by
    unfold queryOpenAIModel
    rw [hfail]
  cases he : e.errorMessage with
  | none =>
    refine ⟨API_ERROR_MESSAGE_PREFIX, ?_, ?_, fun _ => rfl⟩
    · rw [hq]
      unfold getAssistantMessageFromError
      rw [he]
      dsimp only
      unfold createAssistantAPIErrorMessage
      rw [if_neg (by simp [API_ERROR_MESSAGE_PREFIX])]
    · intro m hm
      exact Option.noConfusion hm
  | some m =>
    refine ⟨if jsIncludes m "prompt is too long" then
        PROMPT_TOO_LONG_ERROR_MESSAGE
      else if jsIncludes m "Your credit balance is too low" then
        CREDIT_BALANCE_TOO_LOW_ERROR_MESSAGE
      else if jsIncludes m.toLower "x-api-key" then
        INVALID_API_KEY_ERROR_MESSAGE
      else API_ERROR_MESSAGE_PREFIX ++ ": " ++ m, ?_, ?_, ?_⟩
    · rw [hq]
      unfold getAssistantMessageFromError
      rw [he]
      dsimp only
      cases h1 : jsIncludes m "prompt is too long" <;>
        cases h2 : jsIncludes m "Your credit balance is too low" <;>
        cases h3 : jsIncludes m.toLower "x-api-key" <;>
        simp [h1, h2, h3, createAssistantAPIErrorMessage,
          PROMPT_TOO_LONG_ERROR_MESSAGE,
          CREDIT_BALANCE_TOO_LOW_ERROR_MESSAGE,
          INVALID_API_KEY_ERROR_MESSAGE,
          api_error_prefixed_text_ne_empty m]
    · intro m' hm'
      obtain rfl : m = m' := Option.some_inj.mp hm'
      rfl
    · intro hnone
      exact Option.noConfusion hnone

/-- Witness for `model_call_wrapper_never_throws`: a terminal
credit-balance error resolves to the flagged assistant message with the
category text. -/
theorem model_call_wrapper_never_throws_witness :
    withRetry false 2
        (fun _ => .error (.apiError
          { message := "Your credit balance is too low"
          , status := some 400, headers := [], isConnectionError := false })
          : ℕ → Except Thrown ResponseM)
      = .error (.apiError
          { message := "Your credit balance is too low"
          , status := some 400, headers := [], isConnectionError := false })
    ∧ ∃ t, queryOpenAIModel false 2
          (fun _ => .error (.apiError
            { message := "Your credit balance is too low"
            , status := some 400, headers := [], isConnectionError := false }))
          = .assistant [.text t] 0 0 true
        ∧ (∀ m, (Thrown.apiError
            { message := "Your credit balance is too low"
            , status := some 400, headers := [], isConnectionError := false
            }).errorMessage = some m →
            t = if jsIncludes m "prompt is too long" then
                  PROMPT_TOO_LONG_ERROR_MESSAGE
                else if jsIncludes m "Your credit balance is too low" then
                  CREDIT_BALANCE_TOO_LOW_ERROR_MESSAGE
                else if jsIncludes m.toLower "x-api-key" then
                  INVALID_API_KEY_ERROR_MESSAGE
                else API_ERROR_MESSAGE_PREFIX ++ ": " ++ m)
        ∧ ((Thrown.apiError
            { message := "Your credit balance is too low"
            , status := some 400, headers := [], isConnectionError := false
            }).errorMessage = none → t = API_ERROR_MESSAGE_PREFIX) :=
  ⟨rfl, model_call_wrapper_never_throws false 2 _ _ rfl⟩

/-- C9: display normalization splits an assistant message with `N ≥ 1`
content blocks into `N` single-block assistant messages, each carrying
`costUSD / N`, and the costs of the derived messages sum back to the
original `costUSD` exactly (over rationals; the source computes in floating
point). -/
theorem display_split_cost_round_trip (content : List ContentBlock)
    (costUSD : ℚ) (durationMs : ℕ) (isErr : Bool)
    (hne : content ≠ []) :
    (normalizeMessages [.assistant content costUSD durationMs isErr]).length
        = content.length
    ∧ (∀ m ∈ normalizeMessages [.assistant content costUSD durationMs isErr],
        ∃ b, m = .assistant [b] (costUSD / (content.length : ℚ))
          durationMs isErr)
    ∧ ((normalizeMessages [.assistant content costUSD durationMs isErr]).map
        Message.costUSD).sum = costUSD := by
  have hnorm : normalizeMessages [.assistant content costUSD durationMs isErr]
      = content.map fun b =>
          .assistant [b] (costUSD / (content.length : ℚ)) durationMs isErr := by
    unfold normalizeMessages
    rw [List.flatMap_cons, List.flatMap_nil, List.append_nil]
  refine ⟨?_, ?_, ?_⟩
  · rw [hnorm, List.length_map]
  · rw [hnorm]
    intro m hm
    obtain ⟨b, _, rfl⟩ := List.mem_map.mp hm
    exact ⟨b, rfl⟩
  · rw [hnorm, List.map_map]
    have hmap : (Message.costUSD ∘ fun b =>
        Message.assistant [b] (costUSD / (content.length : ℚ))
          durationMs isErr)
        = Function.const ContentBlock (costUSD / (content.length : ℚ)) :=
      rfl
    rw [hmap, List.map_const, List.sum_replicate, nsmul_eq_mul]
    have hlen : (content.length : ℚ) ≠ 0 := by
      rw [Nat.cast_ne_zero]
      exact fun h => hne (List.length_eq_zero.mp h)
    field_simp

/-- Witness for `display_split_cost_round_trip`: a two-block assistant
message at cost 3 splits into two messages of cost 3/2 summing to 3. -/
theorem display_split_cost_round_trip_witness :
    ([.text "a", .text "b"] : List ContentBlock) ≠ []
    ∧ ((normalizeMessages
          [.assistant [.text "a", .text "b"] 3 7 false]).length
          = ([.text "a", .text "b"] : List ContentBlock).length
        ∧ (∀ m ∈ normalizeMessages
              [.assistant [.text "a", .text "b"] 3 7 false],
            ∃ b, m = .assistant [b]
              (3 / (([.text "a", .text "b"] : List ContentBlock).length : ℚ))
              7 false)
        ∧ ((normalizeMessages
              [.assistant [.text "a", .text "b"] 3 7 false]).map
            Message.costUSD).sum = 3) :=
  ⟨by simp,
    display_split_cost_round_trip [.text "a", .text "b"] 3 7 false (by simp)⟩

/-! ### Wire-normalization lemmas (C8) -/

theorem isToolResultUser_shape (m : Message)
    (h : m.isToolResultUser = true) :
    ∃ bs, m = .user (.blocks bs)
      ∧ (UserContent.blocks bs).isToolResultFirst = true := by
  cases m with
  | user c =>
    cases c with
    | str s =>
      simp [Message.isToolResultUser, UserContent.isToolResultFirst] at h
    | blocks bs => exact ⟨bs, rfl, h⟩
  | assistant content c d e => simp [Message.isToolResultUser] at h
  | progress t => simp [Message.isToolResultUser] at h

theorem isToolResultFirst_append (bs ds : List ContentBlock)
    (h : (UserContent.blocks bs).isToolResultFirst = true) :
    (UserContent.blocks (bs ++ ds)).isToolResultFirst = true := by
  cases bs with
  | nil => simp [UserContent.isToolResultFirst] at h
  | cons b bs' => cases b <;> simp [UserContent.isToolResultFirst] at h ⊢

theorem normalizeForAPIStep_push_of_not_TR (acc : List Message) (m : Message)
    (hm : m.isToolResultUser = false) (hp : m.isProgress = false) :
    normalizeForAPIStep acc m = acc ++ [m] := by
  cases m with
  | progress t => simp [Message.isProgress] at hp
  | assistant content c d e => rfl
  | user c =>
    have hc : c.isToolResultFirst = false := by
      simpa [Message.isToolResultUser] using hm
    unfold normalizeForAPIStep
    dsimp only
    rw [if_pos (by simp [hc])]

theorem normalizeForAPIStep_push_of_TR (acc : List Message)
    (bs : List ContentBlock)
    (hbs : (UserContent.blocks bs).isToolResultFirst = true)
    (hacc : ∀ x, acc.getLast? = some x → x.isToolResultUser = false) :
    normalizeForAPIStep acc (.user (.blocks bs))
      = acc ++ [.user (.blocks bs)] := by
  unfold normalizeForAPIStep
  dsimp only
  rw [if_neg (by simp [hbs])]
  cases hl : acc.getLast? with
  | none => rfl
  | some x =>
    cases x with
    | user lc =>
      have hx := hacc _ hl
      have hlc : lc.isToolResultFirst = false := by
        simpa [Message.isToolResultUser] using hx
      dsimp only
      rw [if_neg (by simp [hlc])]
    | assistant content c d e => rfl
    | progress t => rfl

theorem normalizeForAPIStep_merge (acc : List Message)
    (bs ds : List ContentBlock)
    (hbs : (UserContent.blocks bs).isToolResultFirst = true)
    (hds : (UserContent.blocks ds).isToolResultFirst = true) :
    normalizeForAPIStep (acc ++ [.user (.blocks bs)]) (.user (.blocks ds))
      = acc ++ [.user (.blocks (bs ++ ds))] := by
  unfold normalizeForAPIStep
  dsimp only
  rw [if_neg (by simp [hds])]
  rw [List.getLast?_concat]
  dsimp only
  rw [if_pos (by simp [hbs])]
  rw [List.dropLast_concat]

theorem runJoin_nil : runJoin [] = [] := rfl

theorem runJoin_cons_of_TR (m : Message) (rest : List Message)
    (h : m.isToolResultUser = true) :
    runJoin (m :: rest) = m.userBlocks ++ runJoin rest := by
  unfold runJoin
  rw [List.takeWhile_cons_of_pos h]
  simp

theorem runJoin_cons_of_not_TR (m : Message) (rest : List Message)
    (h : m.isToolResultUser = false) :
    runJoin (m :: rest) = [] := by
  unfold runJoin
  rw [List.takeWhile_cons_of_neg (by simp [h])]
  rfl

theorem mergeToolResultRunsSpec_nil : mergeToolResultRunsSpec [] = [] := by
  simp [mergeToolResultRunsSpec]

theorem mergeToolResultRunsSpec_cons_of_TR (m : Message)
    (rest : List Message) (h : m.isToolResultUser = true) :
    mergeToolResultRunsSpec (m :: rest)
      = .user (.blocks (m.userBlocks ++ runJoin rest)) ::
          mergeToolResultRunsSpec
            (rest.dropWhile Message.isToolResultUser) := by
  rw [mergeToolResultRunsSpec]
  rw [if_pos h]

theorem mergeToolResultRunsSpec_cons_of_not_TR (m : Message)
    (rest : List Message) (h : m.isToolResultUser = false) :
    mergeToolResultRunsSpec (m :: rest)
      = m :: mergeToolResultRunsSpec rest := by
  rw [mergeToolResultRunsSpec]
  rw [if_neg (by simp [h])]

/-- The fold of the merge step computes `mergeToolResultRunsSpec`, both from
an accumulator not ending in a tool-result user message (first part) and
from one ending in a pending tool-result user message being grown (second
part). -/
theorem foldl_normalizeForAPIStep_eq :
    ∀ (l : List Message), (∀ m ∈ l, m.isProgress = false) →
      (∀ acc, (∀ x, acc.getLast? = some x → x.isToolResultUser = false) →
        List.foldl normalizeForAPIStep acc l
          = acc ++ mergeToolResultRunsSpec l)
      ∧ (∀ acc bs,
          (∀ x, acc.getLast? = some x → x.isToolResultUser = false) →
          (UserContent.blocks bs).isToolResultFirst = true →
          List.foldl normalizeForAPIStep (acc ++ [.user (.blocks bs)]) l
            = acc ++ .user (.blocks (bs ++ runJoin l)) ::
                mergeToolResultRunsSpec
                  (l.dropWhile Message.isToolResultUser)) := by
  intro l
  induction l with
  | nil =>
    intro _
    constructor
    · intro acc _
      rw [List.foldl_nil, mergeToolResultRunsSpec_nil, List.append_nil]
    · intro acc bs _ _
      rw [List.foldl_nil, runJoin_nil, List.dropWhile_nil,
        mergeToolResultRunsSpec_nil, List.append_nil]
  | cons m rest ih =>
    intro hnp
    have hm : m.isProgress = false := hnp m (List.mem_cons_self _ _)
    have hrest : ∀ x ∈ rest, x.isProgress = false := fun x hx =>
      hnp x (List.mem_cons_of_mem _ hx)
    obtain ⟨ih1, ih2⟩ := ih hrest
    constructor
    · intro acc hacc
      rw [List.foldl_cons]
      by_cases hTR : m.isToolResultUser = true
      · obtain ⟨bs, rfl, hbs⟩ := isToolResultUser_shape m hTR
        rw [normalizeForAPIStep_push_of_TR acc bs hbs hacc]
        rw [ih2 acc bs hacc hbs]
        rw [mergeToolResultRunsSpec_cons_of_TR _ _ hTR]
        rfl
      · have hTRf : m.isToolResultUser = false := by simpa using hTR
        rw [normalizeForAPIStep_push_of_not_TR acc m hTRf hm]
        have hacc' : ∀ x, (acc ++ [m]).getLast? = some x →
            x.isToolResultUser = false := by
          intro x hx
          rw [List.getLast?_concat] at hx
          obtain rfl : m = x := Option.some_inj.mp hx
          exact hTRf
        rw [ih1 (acc ++ [m]) hacc']
        rw [mergeToolResultRunsSpec_cons_of_not_TR _ _ hTRf]
        simp
    · intro acc bs hacc hbs
      rw [List.foldl_cons]
      by_cases hTR : m.isToolResultUser = true
      · obtain ⟨ds, rfl, hds⟩ := isToolResultUser_shape m hTR
        rw [normalizeForAPIStep_merge acc bs ds hbs hds]
        rw [ih2 acc (bs ++ ds) hacc (isToolResultFirst_append bs ds hbs)]
        rw [runJoin_cons_of_TR _ _ hTR, List.dropWhile_cons_of_pos hTR]
        simp [Message.userBlocks]
      · have hTRf : m.isToolResultUser = false := by simpa using hTR
        rw [normalizeForAPIStep_push_of_not_TR _ m hTRf hm]
        have hacc' : ∀ x,
            ((acc ++ [Message.user (.blocks bs)]) ++ [m]).getLast? = some x →
            x.isToolResultUser = false := by
          intro x hx
          rw [List.getLast?_concat] at hx
          obtain rfl : m = x := Option.some_inj.mp hx
          exact hTRf
        rw [ih1 _ hacc']
        rw [runJoin_cons_of_not_TR _ _ hTRf,
          List.dropWhile_cons_of_neg (by simp [hTRf]),
          mergeToolResultRunsSpec_cons_of_not_TR _ _ hTRf]
        simp

/-- The first element surviving `dropWhile` fails the predicate. -/
theorem dropWhile_head_false (p : α → Bool) :
    ∀ (l : List α) (x : α) (xs : List α), l.dropWhile p = x :: xs →
      p x = false := by
  intro l
  induction l with
  | nil => intro x xs h; exact absurd h (by simp)
  | cons a rest ih =>
    intro x xs h
    by_cases ha : p a = true
    · rw [List.dropWhile_cons_of_pos ha] at h
      exact ih x xs h
    · rw [List.dropWhile_cons_of_neg ha] at h
      obtain ⟨rfl, -⟩ := List.cons.inj h
      simpa using ha

/-- `mergeToolResultRunsSpec` never leaves two adjacent tool-result user
messages. -/
theorem mergeToolResultRunsSpec_chain :
    ∀ (n : ℕ) (l : List Message), l.length ≤ n →
      List.Chain' (fun a b => ¬(a.isToolResultUser = true
        ∧ b.isToolResultUser = true)) (mergeToolResultRunsSpec l) := by
  intro n
  induction n with
  | zero =>
    intro l hl
    obtain rfl : l = [] := List.length_eq_zero.mp (Nat.le_zero.mp hl)
    rw [mergeToolResultRunsSpec_nil]
    exact List.chain'_nil
  | succ n ihn =>
    intro l hl
    cases l with
    | nil =>
      rw [mergeToolResultRunsSpec_nil]
      exact List.chain'_nil
    | cons m rest =>
      rw [List.length_cons, Nat.succ_le_succ_iff] at hl
      by_cases hTR : m.isToolResultUser = true
      · rw [mergeToolResultRunsSpec_cons_of_TR _ _ hTR]
        rw [List.chain'_cons']
        refine ⟨?_, ihn _ (le_trans (dropWhile_length_le _ _) hl)⟩
        intro y hy
        cases hd : rest.dropWhile Message.isToolResultUser with
        | nil =>
          rw [hd, mergeToolResultRunsSpec_nil] at hy
          exact absurd hy (by simp)
        | cons z zs =>
          have hz : z.isToolResultUser = false :=
            dropWhile_head_false _ rest z zs hd
          rw [hd, mergeToolResultRunsSpec_cons_of_not_TR _ _ hz] at hy
          obtain rfl : z = y := by simpa using hy
          rintro ⟨-, hzy⟩
          rw [hz] at hzy
          exact absurd hzy (by simp)
      · have hTRf : m.isToolResultUser = false := by simpa using hTR
        rw [mergeToolResultRunsSpec_cons_of_not_TR _ _ hTRf]
        rw [List.chain'_cons']
        refine ⟨?_, ihn rest hl⟩
        rintro y - ⟨hmy, -⟩
        rw [hTRf] at hmy
        exact absurd hmy (by simp)

/-- A single merge step never introduces a progress message. -/
theorem normalizeForAPIStep_not_progress (acc : List Message) (m : Message)
    (hacc : ∀ x ∈ acc, x.isProgress = false) :
    ∀ x ∈ normalizeForAPIStep acc m, x.isProgress = false := by
  cases m with
  | progress t => exact hacc
  | assistant content c d e =>
    intro x hx
    rcases List.mem_append.mp hx with h | h
    · exact hacc x h
    · obtain rfl : x = Message.assistant content c d e := by simpa using h
      rfl
  | user c =>
    intro x hx
    unfold normalizeForAPIStep at hx
    dsimp only at hx
    repeat' split at hx
    all_goals rcases List.mem_append.mp hx with h | h
    all_goals
      first
        | exact hacc x h
        | exact hacc x ((List.dropLast_sublist _).subset h)
        | (rw [List.mem_singleton] at h; subst h; rfl)

theorem foldl_normalizeForAPIStep_not_progress :
    ∀ (l : List Message) (acc : List Message),
      (∀ x ∈ acc, x.isProgress = false) →
      ∀ x ∈ List.foldl normalizeForAPIStep acc l, x.isProgress = false := by
  intro l
  induction l with
  | nil => intro acc hacc; exact hacc
  | cons m rest ih =>
    intro acc hacc
    rw [List.foldl_cons]
    exact ih _ (normalizeForAPIStep_not_progress acc m hacc)

/-- C8: wire normalization.  The transcript produced by
`normalizeMessagesForAPI` equals the progress-free input with every maximal
run of consecutive tool-result user messages merged into one user message
carrying the run's concatenated content blocks in order; consequently it
contains no progress message and never two consecutive tool-result user
messages. -/
theorem wire_normalization_merges_and_strips (messages : List Message) :
    normalizeMessagesForAPI messages
        = mergeToolResultRunsSpec
            (messages.filter (fun m => !m.isProgress))
    ∧ (∀ m ∈ normalizeMessagesForAPI messages, m.isProgress = false)
    ∧ List.Chain' (fun a b => ¬(a.isToolResultUser = true
        ∧ b.isToolResultUser = true)) (normalizeMessagesForAPI messages) := by
  have hnp : ∀ m ∈ messages.filter (fun m => !m.isProgress),
      m.isProgress = false := by
    intro m hm
    have := (List.mem_filter.mp hm).2
    simpa using this
  have heq : normalizeMessagesForAPI messages
      = mergeToolResultRunsSpec
          (messages.filter (fun m => !m.isProgress)) := by
    unfold normalizeMessagesForAPI
    have h := (foldl_normalizeForAPIStep_eq _ hnp).1 []
      (fun x hx => absurd hx (by simp))
    rw [h, List.nil_append]
  refine ⟨heq, ?_, ?_⟩
  · intro m hm
    exact foldl_normalizeForAPIStep_not_progress _ [] (by simp) m hm
  · rw [heq]
    exact mergeToolResultRunsSpec_chain
      (messages.filter (fun m => !m.isProgress)).length _ (le_refl _)

end AnonKode
